import Mathlib

/-!
Shallow embedding of `plugins/lualib_bundle_fixer.js`, the one piece of
executable logic in the repository: a `beforeEmit` hook of a
typescript-to-lua build that removes the emitted `lualib_bundle.lua` from
the result list when the configuration flag `generate_lualib_bundle` is
unset, and renames that file, rewriting the single `require` line at the
top of every other output, when `custom_lualib_bundle_name` is set.

Modelling decisions:
* A file path is the list of components of an already resolved absolute
  path; `path.resolve` is the identity on such paths, `path.dirname` drops
  the last component, `path.basename` is the last component, and
  `path.join` with a separator-free final segment appends one component.
* The configuration object is a structure; the javascript truthiness tests
  on it are made explicit: an absent value and the empty string are falsy.
* `options.outDir` is an optional path; `assert(options.outDir)` throwing
  is modelled by returning `Except.error`.
* `Array.prototype.findIndex` returns `-1` on failure, and
  `Array.prototype.splice(idx, 1)` interprets a negative index from the
  end of the array, clamping as the ECMAScript standard prescribes; both
  are reproduced exactly.
* The anchored, non-global regular expression of the rewrite step consists
  of literal characters only, so `String.prototype.replace` with it either
  substitutes at the one leading match or returns the string unchanged.
  The replacement string, built by a template literal around the
  configured name before `replace` runs, is then subject to ECMAScript
  GetSubstitution: `$$` inserts `$`, `$&` the matched text, a dollar and a
  backquote the text before the match (empty, since the match is at index
  0), `$'` the text after the match; the regex has no capture groups and
  no named groups, so every other `$` pattern is copied literally, which a
  left-to-right one-character fallback reproduces exactly.
-/

/-- One element of the transpiler's `result` array: an output file
descriptor with its target path and its text. -/
structure EmitFile where
  outputPath : List String
  code : String
deriving DecidableEq

/-- The plugin's configuration object, read from `cc-ts-config.json`. -/
structure Config where
  generate_lualib_bundle : Bool
  custom_lualib_bundle_name : Option String
deriving DecidableEq

/-- `path.resolve` on an already resolved absolute path. -/
def resolve (p : List String) : List String := p

/-- `path.dirname`: all components but the last. -/
def dirname (p : List String) : List String := p.dropLast

/-- `path.basename`: the last component. -/
def basename (p : List String) : String := p.getLastD ""

/-- `path.join` of a directory and one separator-free final segment. -/
def joinPath (d : List String) (b : String) : List String := d ++ [b]

/-- Javascript truthiness of `config.custom_lualib_bundle_name`: present
and not the empty string. -/
def nameActive (c : Config) : Bool :=
  match c.custom_lualib_bundle_name with
  | none => false
  | some n => if n = "" then false else true

/-- The predicate of both the `findIndex` callback and the rename `if`:
the resolved output path lies directly in the resolved output directory
and its basename is `lualib_bundle.lua`. -/
def isBundleEntry (out_dir : List String) (f : EmitFile) : Bool :=
  let file_path := resolve f.outputPath
  dirname file_path == out_dir && basename file_path == "lualib_bundle.lua"

/-- `Array.prototype.findIndex`: index of the first element satisfying the
callback, `-1` when there is none. -/
def findIndex {α : Type} (p : α → Bool) : List α → Int
  | [] => -1
  | a :: t =>
    if p a then 0
    else
      let r := findIndex p t
      if r < 0 then -1 else r + 1

/-- The actual start of `Array.prototype.splice(idx, 1)`: a negative index
counts from the end of the array and the result is clamped to
`[0, length]`, as the ECMAScript standard prescribes. -/
def spliceStart (len : Nat) (idx : Int) : Nat :=
  (if idx < 0 then max ((len : Int) + idx) 0 else min idx (len : Int)).toNat

/-- `Array.prototype.splice(idx, 1)`: remove at most one element at the
actual start. -/
def spliceRemoveOne {α : Type} (l : List α) (idx : Int) : List α :=
  l.take (spliceStart l.length idx) ++ l.drop (spliceStart l.length idx + 1)

/-- The literal line matched by the anchored regular expression
`^local ____lualib = require\("lualib_bundle"\)\n`. -/
def oldLine : String := "local ____lualib = require(\"lualib_bundle\")\n"

/-- The literal replacement line built from the configured name. -/
def newLine (name : String) : String :=
  "local ____lualib = require(\"" ++ name ++ "\")\n"

/-- Strip an exact pattern from the front of a character list, returning
the remainder on success. -/
def dropPre : List Char → List Char → Option (List Char)
  | [], s => some s
  | _ :: _, [] => none
  | c :: p, d :: s => if c = d then dropPre p s else none

/-- ECMAScript GetSubstitution for a regular expression with no capture
groups and no named groups: scan the replacement text left to right; `$$`
yields `$`, `$&` yields the matched text, a dollar followed by a backquote
(`Char.ofNat 96`) yields the text before the match, a dollar followed by
an apostrophe (`Char.ofNat 39`) yields the text after the match; any
other dollar (including `$n`, `$<`, or a trailing dollar, which the
standard copies verbatim when there is no matching group) falls back to a
literal `$` followed by the next character copied literally (that
character is not itself a dollar in this branch, so this coincides with
the standard's resumption of the scan at it), and every other character
is copied. -/
def getSubstitution (matched before after : List Char) :
    List Char → List Char
  | [] => []
  | c :: rest =>
    if c = '$' then
      match rest with
      | [] => ['$']
      | d :: rest2 =>
        if d = '$' then '$' :: getSubstitution matched before after rest2
        else if d = '&' then
          matched ++ getSubstitution matched before after rest2
        else if d = Char.ofNat 96 then
          before ++ getSubstitution matched before after rest2
        else if d = Char.ofNat 39 then
          after ++ getSubstitution matched before after rest2
        else '$' :: d :: getSubstitution matched before after rest2
    else c :: getSubstitution matched before after rest

/-- `code.replace(/^local ____lualib = require\("lualib_bundle"\)\n/,
`local ____lualib = require("NAME")\n`)`: a non-global regular expression
of literal characters anchored at the start of the string, so the only
possible match is a leading occurrence of `oldLine` at index 0 (hence the
text before the match is empty and the text after the match is the rest
of the code); the replacement string built by the template literal is
passed through GetSubstitution and any other string is returned
unchanged. -/
def replaceBundleRequire (name : String) (code : String) : String :=
  match dropPre oldLine.data code.data with
  | some rest =>
    String.mk (getSubstitution oldLine.data [] rest (newLine name).data
      ++ rest)
  | none => code

/-- The first `if` block of `beforeEmit` (source lines 11-22): when
`generate_lualib_bundle` is unset, assert `options.outDir`, locate the
bundle file with `findIndex` and remove one element with `splice`. -/
def removeStep (cfg : Config) (outDir : Option (List String))
    (result : List EmitFile) : Except String (List EmitFile) :=
  if !cfg.generate_lualib_bundle then
    match outDir with
    | none => Except.error "AssertionError: options.outDir"
    | some d =>
      let out_dir := resolve d
      let idx := findIndex (isBundleEntry out_dir) result
      Except.ok (spliceRemoveOne result idx)
  else Except.ok result

/-- The body of the `for` loop of the second `if` block (source lines
27-42): rename the bundle file, rewrite the leading `require` line of any
other file. -/
def renameFile (out_dir : List String) (name : String) (file : EmitFile) :
    EmitFile :=
  if isBundleEntry out_dir file then
    { file with outputPath := joinPath out_dir (name ++ ".lua") }
  else
    { file with code := replaceBundleRequire name file.code }

/-- The second `if` block of `beforeEmit` (source lines 23-43): when
`custom_lualib_bundle_name` is truthy, assert `options.outDir` and apply
`renameFile` to every element of the result list. -/
def renameStep (cfg : Config) (outDir : Option (List String))
    (result : List EmitFile) : Except String (List EmitFile) :=
  match cfg.custom_lualib_bundle_name with
  | none => Except.ok result
  | some name =>
    if name = "" then Except.ok result
    else
      match outDir with
      | none => Except.error "AssertionError: options.outDir"
      | some d => Except.ok (result.map (renameFile (resolve d) name))

/-- The whole `beforeEmit` hook: the removal block runs first, then the
rename block; a thrown assertion aborts the hook. -/
def beforeEmit (cfg : Config) (outDir : Option (List String))
    (result : List EmitFile) : Except String (List EmitFile) :=
  match removeStep cfg outDir result with
  | Except.error e => Except.error e
  | Except.ok mid => renameStep cfg outDir mid

/-- Whether the hook threw. -/
def isError {ε α : Type} : Except ε α → Bool
  | Except.error _ => true
  | Except.ok _ => false

lemma strData_append (a b : String) : (a ++ b).data = a.data ++ b.data := rfl

lemma strMk_data (s : String) : String.mk s.data = s := rfl

lemma strEq_of_data {a b : String} (h : a.data = b.data) : a = b :=
  congrArg String.mk h

lemma dropPre_append (p s : List Char) : dropPre p (p ++ s) = some s := by
  induction p with
  | nil => rfl
  | cons c t ih => simp [dropPre, ih]

lemma dropPre_eq_some {p d r : List Char} (h : dropPre p d = some r) :
    d = p ++ r := by
  induction p generalizing d with
  | nil => simpa [dropPre] using h
  | cons c t ih =>
    cases d with
    | nil => exact absurd h (by simp [dropPre])
    | cons e s =>
      simp only [dropPre] at h
      by_cases hc : c = e
      · rw [if_pos hc] at h
        subst hc
        rw [List.cons_append, ih h]
      · rw [if_neg hc] at h
        exact absurd h (by simp)

lemma getSubstitution_no_dollar (m b a : List Char) (repl : List Char)
    (h : ('$' : Char) ∉ repl) : getSubstitution m b a repl = repl := by
  induction repl with
  | nil => rfl
  | cons c rest ih =>
    have hc : c ≠ '$' := fun he => h (by simp [he])
    have h2 : ('$' : Char) ∉ rest := fun hm => h (List.mem_cons_of_mem c hm)
    conv_lhs => rw [getSubstitution.eq_def]
    simp only [if_neg hc, ih h2]

lemma newLine_no_dollar {name : String} (hd : ('$' : Char) ∉ name.data) :
    ('$' : Char) ∉ (newLine name).data := by
  intro hm
  have he : (newLine name).data
      = ("local ____lualib = require(\"" : String).data
        ++ (name.data ++ ("\")\n" : String).data) := by
    simp [newLine, strData_append, List.append_assoc]
  rw [he] at hm
  rcases List.mem_append.mp hm with h1 | h2
  · exact absurd h1 (by decide)
  · rcases List.mem_append.mp h2 with h3 | h4
    · exact hd h3
    · exact absurd h4 (by decide)

lemma rep_of_pre (name rest : String) (hd : ('$' : Char) ∉ name.data) :
    replaceBundleRequire name (oldLine ++ rest) = newLine name ++ rest := by
  simp only [replaceBundleRequire, strData_append, dropPre_append]
  rw [getSubstitution_no_dollar _ _ _ _ (newLine_no_dollar hd)]
  rfl

lemma rep_of_not_pre (name s : String) (h : ∀ rest, s ≠ oldLine ++ rest) :
    replaceBundleRequire name s = s := by
  cases hd : dropPre oldLine.data s.data with
  | none => simp [replaceBundleRequire, hd]
  | some r =>
    have hs : s = oldLine ++ String.mk r := strEq_of_data (dropPre_eq_some hd)
    exact absurd hs (h (String.mk r))

lemma newLine_ne_oldLine {N : String} (h : N ≠ "lualib_bundle") :
    newLine N ≠ oldLine := by
  intro he
  apply h
  apply strEq_of_data
  have h1 := congrArg String.data he
  have h2 : (newLine N).data
      = ("local ____lualib = require(\"" : String).data
        ++ (N.data ++ ("\")\n" : String).data) := by
    simp [newLine, strData_append, List.append_assoc]
  have h3 : oldLine.data
      = ("local ____lualib = require(\"" : String).data
        ++ (("lualib_bundle" : String).data ++ ("\")\n" : String).data) := rfl
  rw [h2, h3] at h1
  exact List.append_cancel_right (List.append_cancel_left h1)

lemma findIndex_of_all_false {α : Type} (p : α → Bool) (l : List α)
    (h : ∀ x ∈ l, p x = false) : findIndex p l = -1 := by
  induction l with
  | nil => rfl
  | cons a t ih =>
    have ha := h a (List.mem_cons_self a t)
    have ht := ih fun x hx => h x (List.mem_cons_of_mem a hx)
    simp [findIndex, ha, ht]

lemma take_length_sub_one {α : Type} (l : List α) :
    l.take (l.length - 1) = l.dropLast := by
  induction l with
  | nil => rfl
  | cons a t ih =>
    cases t with
    | nil => rfl
    | cons b u => exact congrArg (List.cons a) ih

lemma spliceStart_neg_one (len : Nat) : spliceStart len (-1) = len - 1 := by
  rw [spliceStart, if_pos (by norm_num : (-1 : Int) < 0)]
  omega

lemma spliceStart_ofNat (len k : Nat) (h : k ≤ len) :
    spliceStart len (k : Int) = k := by
  rw [spliceStart, if_neg (by omega)]
  omega

lemma splice_nonneg {α : Type} (l : List α) (k : Nat) (hk : k ≤ l.length) :
    spliceRemoveOne l (k : Int) = l.take k ++ l.drop (k + 1) := by
  simp only [spliceRemoveOne, spliceStart_ofNat l.length k hk]

lemma splice_neg_one {α : Type} (l : List α) :
    spliceRemoveOne l (-1) = l.dropLast := by
  simp only [spliceRemoveOne, spliceStart_neg_one]
  cases l with
  | nil => rfl
  | cons a t =>
    have h2 : (a :: t).length - 1 + 1 = (a :: t).length := by simp
    rw [h2, List.drop_length, List.append_nil, take_length_sub_one]

lemma findIndex_found {α : Type} (p : α → Bool) (l : List α)
    (h : l.any p = true) :
    ∃ k : Nat, findIndex p l = (k : Int) ∧ k < l.length ∧
      l.take k ++ l.drop (k + 1) = l.eraseP p := by
  induction l with
  | nil => simp at h
  | cons a t ih =>
    by_cases hp : p a
    · refine ⟨0, by simp [findIndex, hp], by simp, ?_⟩
      simp [List.eraseP_cons_of_pos hp]
    · have hany : t.any p = true := by
        simpa [List.any_cons, hp] using h
      obtain ⟨k, hfk, hk, hsp⟩ := ih hany
      refine ⟨k + 1, ?_, by simpa using Nat.succ_lt_succ hk, ?_⟩
      · have hnn : ¬((k : Int) < 0) := by omega
        simp [findIndex, hp, hfk, hnn]
      · simp only [List.take_succ_cons, List.drop_succ_cons,
          List.eraseP_cons_of_neg hp, List.cons_append]
        rw [hsp]

lemma splice_findIndex_eq_eraseP {α : Type} (p : α → Bool) (l : List α)
    (h : l.any p = true) :
    spliceRemoveOne l (findIndex p l) = l.eraseP p := by
  obtain ⟨k, hfk, hk, hsp⟩ := findIndex_found p l h
  rw [hfk, splice_nonneg l k (Nat.le_of_lt hk), hsp]

lemma splice_findIndex_no_match {α : Type} (p : α → Bool) (l : List α)
    (hcount : l.countP p ≤ 1) :
    ∀ y ∈ spliceRemoveOne l (findIndex p l), p y = false := by
  cases hany : l.any p with
  | false =>
    have hall : ∀ x ∈ l, p x = false := by
      intro x hx
      simpa using List.any_eq_false.mp hany x hx
    rw [findIndex_of_all_false p l hall, splice_neg_one]
    intro y hy
    exact hall y ((List.dropLast_sublist l).subset hy)
  | true =>
    rw [splice_findIndex_eq_eraseP p l hany]
    obtain ⟨x, hx, hpx⟩ := List.any_eq_true.mp hany
    obtain ⟨b, l1, l2, hl1, hpb, hleq, herase⟩ := List.exists_of_eraseP hx hpx
    rw [herase]
    have hcnt : l.countP p = l1.countP p + (l2.countP p + 1) := by
      rw [hleq]
      simp [List.countP_append, List.countP_cons, hpb]
    intro y hy
    rcases List.mem_append.mp hy with h1 | h2
    · simpa using hl1 y h1
    · have hc2 : l2.countP p = 0 := by omega
      simpa using List.countP_eq_zero.mp hc2 y h2

lemma beforeEmit_eq {cfg : Config} {o : Option (List String)}
    {l mid : List EmitFile} (h : removeStep cfg o l = Except.ok mid) :
    beforeEmit cfg o l = renameStep cfg o mid := by
  simp [beforeEmit, h]

lemma renameStep_spec {cfg : Config} {d : List String} {l r : List EmitFile}
    (h : renameStep cfg (some d) l = Except.ok r) :
    r = l ∨ ∃ N, cfg.custom_lualib_bundle_name = some N ∧ N ≠ "" ∧
      r = l.map (renameFile (resolve d) N) := by
  unfold renameStep at h
  split at h
  next => exact Or.inl (Except.ok.inj h).symm
  next N hn =>
    by_cases hN : N = ""
    · rw [if_pos hN] at h
      exact Or.inl (Except.ok.inj h).symm
    · rw [if_neg hN] at h
      exact Or.inr ⟨N, hn, hN, (Except.ok.inj h).symm⟩

lemma isBundleEntry_code {d : List String} {f : EmitFile} {c : String} :
    isBundleEntry d { f with code := c } = isBundleEntry d f := rfl

lemma renameFile_not_bundle {d : List String} {N : String} {f : EmitFile}
    (h : isBundleEntry d f = false) :
    renameFile d N f = { f with code := replaceBundleRequire N f.code } := by
  simp [renameFile, h]

lemma renameFile_bundle {d : List String} {N : String} {f : EmitFile}
    (h : isBundleEntry d f = true) :
    renameFile d N f = { f with outputPath := joinPath d (N ++ ".lua") } := by
  simp [renameFile, h]

/-- C3: for a non-empty result list containing no entry that resolves to
`lualib_bundle.lua` directly in the resolved `outDir`, with
`generate_lualib_bundle` false the removal step still removes an entry:
`findIndex` returns `-1`, so `splice(-1, 1)` silently deletes the last
element of the list, and no error is raised. -/
theorem claimC3_wrong_entry_removed (cfg : Config) (d : List String)
    (result : List EmitFile)
    (hgen : cfg.generate_lualib_bundle = false)
    (hne : result ≠ [])
    (hnone : ∀ f ∈ result, isBundleEntry (resolve d) f = false) :
    removeStep cfg (some d) result = Except.ok result.dropLast ∧
    result.dropLast.length + 1 = result.length := by
  constructor
  · simp [removeStep, hgen, findIndex_of_all_false _ _ hnone, splice_neg_one]
  · have := List.length_pos.mpr hne
    rw [List.length_dropLast]
    omega

theorem claimC3_witness :
    (⟨false, none⟩ : Config).generate_lualib_bundle = false ∧
    removeStep ⟨false, none⟩ (some ["out"]) [⟨["out", "a.lua"], "c"⟩]
      = Except.ok (([⟨["out", "a.lua"], "c"⟩] : List EmitFile).dropLast) ∧
    (([⟨["out", "a.lua"], "c"⟩] : List EmitFile)).dropLast.length + 1
      = ([⟨["out", "a.lua"], "c"⟩] : List EmitFile).length :=
  ⟨rfl, claimC3_wrong_entry_removed ⟨false, none⟩ ["out"]
    [⟨["out", "a.lua"], "c"⟩] rfl (by decide) (by decide)⟩

/-- C5: the hook raises an error exactly when the `outDir` option is
absent while at least one of the two configuration paths is active
(`generate_lualib_bundle` false, or `custom_lualib_bundle_name` truthy);
no other input raises an error. -/
theorem claimC5_error_iff (cfg : Config) (outDir : Option (List String))
    (result : List EmitFile) :
    isError (beforeEmit cfg outDir result) = true ↔
      outDir = none ∧
        (cfg.generate_lualib_bundle = false ∨ nameActive cfg = true) := by
  rcases cfg with ⟨g, n⟩
  rcases n with _ | N
  · cases g <;> rcases outDir with _ | d <;>
      simp [beforeEmit, removeStep, renameStep, nameActive, isError]
  · by_cases hN : N = "" <;> cases g <;> rcases outDir with _ | d <;>
      simp [beforeEmit, removeStep, renameStep, nameActive, isError, hN]

/-- C6: when `generate_lualib_bundle` is true the removal step changes
nothing: the bundle file is kept, no entry is removed from the result
list, and no entry is modified by that step. -/
theorem claimC6_remove_step_noop (cfg : Config)
    (outDir : Option (List String)) (result : List EmitFile)
    (hgen : cfg.generate_lualib_bundle = true) :
    removeStep cfg outDir result = Except.ok result := by
  simp [removeStep, hgen]

theorem claimC6_witness :
    (⟨true, none⟩ : Config).generate_lualib_bundle = true ∧
    removeStep ⟨true, none⟩ none [⟨["out", "lualib_bundle.lua"], "c"⟩]
      = Except.ok [⟨["out", "lualib_bundle.lua"], "c"⟩] :=
  ⟨rfl, claimC6_remove_step_noop ⟨true, none⟩ none
    [⟨["out", "lualib_bundle.lua"], "c"⟩] rfl⟩

/-- C7: `beforeEmit` is deterministic: two successful runs on the same
configuration, the same `outDir` option and the same input result list
produce the same output list. -/
theorem claimC7_deterministic (cfg : Config) (outDir : Option (List String))
    (result r1 r2 : List EmitFile)
    (h1 : beforeEmit cfg outDir result = Except.ok r1)
    (h2 : beforeEmit cfg outDir result = Except.ok r2) : r1 = r2 := by
  rw [h1] at h2
  exact Except.ok.inj h2

theorem claimC7_witness : ([] : List EmitFile) = [] :=
  claimC7_deterministic ⟨false, some "foo"⟩ (some ["out"]) [] [] [] rfl rfl

/-- C9: frame property of the rename step: the list keeps its length, a
non-bundle entry keeps its `outputPath` (only its code may change), and
the bundle entry keeps its `code` (only its outputPath changes). -/
theorem claimC9_rename_frame (cfg : Config) (d : List String)
    (l r : List EmitFile) (h : renameStep cfg (some d) l = Except.ok r) :
    r.length = l.length ∧
    ∀ i : Nat, ∀ f g : EmitFile, l[i]? = some f → r[i]? = some g →
      (isBundleEntry (resolve d) f = true → g.code = f.code) ∧
      (isBundleEntry (resolve d) f = false → g.outputPath = f.outputPath) := by
  rcases renameStep_spec h with rfl | ⟨N, hn, hN, rfl⟩
  · refine ⟨rfl, ?_⟩
    intro i f g hf hg
    rw [hf] at hg
    cases Option.some.inj hg
    exact ⟨fun _ => rfl, fun _ => rfl⟩
  · refine ⟨List.length_map _ _, ?_⟩
    intro i f g hf hg
    rw [List.getElem?_map, hf] at hg
    cases Option.some.inj hg
    constructor
    · intro hb
      rw [renameFile_bundle hb]
    · intro hb
      rw [renameFile_not_bundle hb]

theorem claimC9_witness :
    renameStep ⟨true, none⟩ (some ["out"]) [⟨["out", "a.lua"], "c"⟩]
      = Except.ok [⟨["out", "a.lua"], "c"⟩] ∧
    (⟨["out", "a.lua"], "c"⟩ : EmitFile).outputPath
      = (⟨["out", "a.lua"], "c"⟩ : EmitFile).outputPath :=
  ⟨rfl, ((claimC9_rename_frame ⟨true, none⟩ ["out"]
      [⟨["out", "a.lua"], "c"⟩] [⟨["out", "a.lua"], "c"⟩] rfl).2 0
      ⟨["out", "a.lua"], "c"⟩ ⟨["out", "a.lua"], "c"⟩ rfl rfl).2 rfl⟩

/-- C1 counterexample: with two entries resolving to the bundle location,
only the first is removed; the second, itself a bundle entry contained in
the input list, is still contained in the list `beforeEmit` returns. -/
theorem claimC1_cex :
    beforeEmit ⟨false, none⟩ (some ["out"])
      [⟨["out", "lualib_bundle.lua"], "a"⟩,
        ⟨["out", "lualib_bundle.lua"], "b"⟩]
      = Except.ok [⟨["out", "lualib_bundle.lua"], "b"⟩] ∧
    isBundleEntry (resolve ["out"]) ⟨["out", "lualib_bundle.lua"], "b"⟩
      = true ∧
    (⟨["out", "lualib_bundle.lua"], "b"⟩ : EmitFile)
      ∈ [⟨["out", "lualib_bundle.lua"], "b"⟩] :=
  ⟨rfl, rfl, List.mem_singleton.mpr rfl⟩

/-- C1 (amended): when the result list contains exactly one entry that
resolves to `lualib_bundle.lua` directly in the resolved `outDir`, and
`generate_lualib_bundle` is false, the list `beforeEmit` returns no longer
contains that entry. -/
theorem claimC1_bundle_removed (cfg : Config) (d : List String)
    (result r : List EmitFile) (E : EmitFile)
    (hgen : cfg.generate_lualib_bundle = false)
    (hE : isBundleEntry (resolve d) E = true)
    (_hmem : E ∈ result)
    (huniq : result.countP (isBundleEntry (resolve d)) = 1)
    (hr : beforeEmit cfg (some d) result = Except.ok r) :
    E ∉ r := by
  have hmid : removeStep cfg (some d) result
      = Except.ok (spliceRemoveOne result
        (findIndex (isBundleEntry (resolve d)) result)) := by
    simp [removeStep, hgen]
  have hnb := splice_findIndex_no_match (isBundleEntry (resolve d)) result
    (by omega)
  rw [beforeEmit_eq hmid] at hr
  rcases renameStep_spec hr with rfl | ⟨N, hn, hN, rfl⟩
  · intro hEr
    have hc := hnb E hEr
    rw [hE] at hc
    exact Bool.noConfusion hc
  · intro hEr
    rcases List.mem_map.mp hEr with ⟨y, hy, hyE⟩
    have hby := hnb y hy
    rw [renameFile_not_bundle hby] at hyE
    have hc : isBundleEntry (resolve d) E = false := by
      rw [← hyE, isBundleEntry_code]
      exact hby
    rw [hE] at hc
    exact Bool.noConfusion hc

theorem claimC1_witness :
    isBundleEntry (resolve ["out"]) ⟨["out", "lualib_bundle.lua"], ""⟩
      = true ∧
    (⟨["out", "lualib_bundle.lua"], ""⟩ : EmitFile)
      ∉ ([] : List EmitFile) :=
  ⟨rfl, claimC1_bundle_removed ⟨false, none⟩ ["out"]
    [⟨["out", "lualib_bundle.lua"], ""⟩] []
    ⟨["out", "lualib_bundle.lua"], ""⟩ rfl rfl (by decide) (by decide) rfl⟩

/-- C2 counterexample: an occurrence of `require("lualib_bundle")` that is
not the anchored leading line is not rewritten at all: the file passes
through `beforeEmit` unchanged, while the claim demands its code become
`x = require("foo")\n`. -/
theorem claimC2_cex :
    beforeEmit ⟨true, some "foo"⟩ (some ["out"])
      [⟨["out", "main.lua"], "x = require(\"lualib_bundle\")\n"⟩]
      = Except.ok [⟨["out", "main.lua"], "x = require(\"lualib_bundle\")\n"⟩]
    ∧ ("x = require(\"lualib_bundle\")\n" : String)
      ≠ "x = require(\"foo\")\n" :=
  ⟨rfl, by decide⟩

/-- C2 (amended): with `custom_lualib_bundle_name` set to `"foo"`, every
entry of the rename step's input that is not the bundle entry has, in the
list `beforeEmit` returns, exactly a leading
`local ____lualib = require("lualib_bundle")` line of its code rewritten
to `local ____lualib = require("foo")`, the rest of the code carried over
verbatim; code without such a leading line is unchanged. -/
theorem claimC2_foo_rewrite (cfg : Config) (d : List String)
    (result mid r : List EmitFile)
    (hname : cfg.custom_lualib_bundle_name = some "foo")
    (hmid : removeStep cfg (some d) result = Except.ok mid)
    (hr : beforeEmit cfg (some d) result = Except.ok r) :
    ∀ i : Nat, ∀ f : EmitFile, mid[i]? = some f →
      isBundleEntry (resolve d) f = false →
      (∀ rest, f.code = oldLine ++ rest →
        r[i]? = some { f with code := newLine "foo" ++ rest }) ∧
      ((∀ rest, f.code ≠ oldLine ++ rest) → r[i]? = some f) := by
  rw [beforeEmit_eq hmid] at hr
  have hrs : renameStep cfg (some d) mid
      = Except.ok (mid.map (renameFile (resolve d) "foo")) := by
    simp [renameStep, hname]
  rw [hrs] at hr
  have he := Except.ok.inj hr
  subst he
  intro i f hf hb
  constructor
  · intro rest hrest
    rw [List.getElem?_map, hf, Option.map_some']
    rw [renameFile_not_bundle hb, hrest, rep_of_pre "foo" rest (by decide)]
  · intro hno
    rw [List.getElem?_map, hf, Option.map_some', renameFile_not_bundle hb,
      rep_of_not_pre _ _ hno]

theorem claimC2_witness :
    (⟨true, some "foo"⟩ : Config).custom_lualib_bundle_name = some "foo" ∧
    ([⟨["out", "lib.lua"], newLine "foo" ++ "z"⟩] : List EmitFile)[0]?
      = some ⟨["out", "lib.lua"], newLine "foo" ++ "z"⟩ :=
  ⟨rfl, ((claimC2_foo_rewrite ⟨true, some "foo"⟩ ["out"]
      [⟨["out", "lib.lua"], oldLine ++ "z"⟩]
      [⟨["out", "lib.lua"], oldLine ++ "z"⟩]
      [⟨["out", "lib.lua"], newLine "foo" ++ "z"⟩] rfl rfl rfl) 0
      ⟨["out", "lib.lua"], oldLine ++ "z"⟩ rfl rfl).1 "z" rfl⟩

/-- C4: with `generate_lualib_bundle` true and `custom_lualib_bundle_name`
set to `N` (present and non-empty, which is the plugin's truthiness test
for `set`), every entry resolving to `lualib_bundle.lua` directly in the
resolved `outDir` has, in the list `beforeEmit` returns, its `outputPath`
equal to the join of `outDir` and `N ++ ".lua"`. -/
theorem claimC4_bundle_renamed (cfg : Config) (d : List String)
    (result r : List EmitFile) (N : String)
    (hgen : cfg.generate_lualib_bundle = true)
    (hname : cfg.custom_lualib_bundle_name = some N)
    (hN : N ≠ "")
    (hr : beforeEmit cfg (some d) result = Except.ok r) :
    ∀ i : Nat, ∀ f : EmitFile, result[i]? = some f →
      isBundleEntry (resolve d) f = true →
      r[i]? = some { f with
        outputPath := joinPath (resolve d) (N ++ ".lua") } := by
  have hmid : removeStep cfg (some d) result = Except.ok result := by
    simp [removeStep, hgen]
  rw [beforeEmit_eq hmid] at hr
  have hrs : renameStep cfg (some d) result
      = Except.ok (result.map (renameFile (resolve d) N)) := by
    simp [renameStep, hname, hN]
  rw [hrs] at hr
  have he := Except.ok.inj hr
  subst he
  intro i f hf hb
  rw [List.getElem?_map, hf, Option.map_some', renameFile_bundle hb]

theorem claimC4_witness :
    ("foo" : String) ≠ "" ∧
    ([⟨["out", "foo.lua"], "c"⟩] : List EmitFile)[0]?
      = some ⟨["out", "foo.lua"], "c"⟩ :=
  ⟨by decide, claimC4_bundle_renamed ⟨true, some "foo"⟩ ["out"]
    [⟨["out", "lualib_bundle.lua"], "c"⟩] [⟨["out", "foo.lua"], "c"⟩] "foo"
    rfl rfl (by decide) rfl 0 ⟨["out", "lualib_bundle.lua"], "c"⟩ rfl rfl⟩

/-- C8 counterexample: with the configured name equal to
`"lualib_bundle"`, code that begins with exactly the matched line is not
changed by the rewrite, so the claimed equivalence between being changed
and beginning with the line fails. The further conjuncts record the
`$`-substitution corners of `String.prototype.replace`: with the name
`"lualib_bundle$`"` the dollar-backquote pair expands to the (empty) text
before the match, so the inserted text again equals the matched line and
such code is also unchanged, and with the name `"$$"` the program inserts
`require("$")`, not `require("$$")`. -/
theorem claimC8_cex :
    replaceBundleRequire "lualib_bundle" oldLine = oldLine ∧
    replaceBundleRequire "lualib_bundle$`" oldLine = oldLine ∧
    replaceBundleRequire "$$" oldLine = newLine "$" ∧
    oldLine = oldLine ++ "" :=
  ⟨rfl, rfl, rfl, rfl⟩

/-- C8 (amended): for a replacement name `N` that contains no `$`
character (so the replacement string is free of ECMAScript substitution
patterns) and differs from `"lualib_bundle"`, the rewrite changes a code
string iff the code begins with exactly the line
`local ____lualib = require("lualib_bundle")` followed by a newline; that
single leading occurrence is replaced, the remainder of the code carried
over verbatim (so a later occurrence of the pattern is left unchanged),
and any other code is returned unchanged. -/
theorem claimC8_anchored_replace (N code : String)
    (hdol : ('$' : Char) ∉ N.data) (hN : N ≠ "lualib_bundle") :
    (replaceBundleRequire N code ≠ code ↔ ∃ rest, code = oldLine ++ rest) ∧
    (∀ rest, code = oldLine ++ rest →
      replaceBundleRequire N code = newLine N ++ rest) ∧
    ((∀ rest, code ≠ oldLine ++ rest) →
      replaceBundleRequire N code = code) := by
  refine ⟨⟨?_, ?_⟩, ?_, ?_⟩
  · intro hch
    by_contra hno
    push_neg at hno
    exact hch (rep_of_not_pre N code hno)
  · rintro ⟨rest, hrest⟩
    subst hrest
    rw [rep_of_pre N rest hdol]
    intro heq
    have hd := congrArg String.data heq
    rw [strData_append, strData_append] at hd
    exact newLine_ne_oldLine hN (strEq_of_data (List.append_cancel_right hd))
  · intro rest hrest
    rw [hrest, rep_of_pre N rest hdol]
  · exact rep_of_not_pre N code

theorem claimC8_witness :
    ('$' : Char) ∉ ("foo" : String).data ∧
    ("foo" : String) ≠ "lualib_bundle" ∧
    replaceBundleRequire "foo" (oldLine ++ "z") = newLine "foo" ++ "z" :=
  ⟨by decide, by decide,
    (claimC8_anchored_replace "foo" (oldLine ++ "z") (by decide)
      (by decide)).2.1 "z" rfl⟩

/-- C10 counterexample: with two bundle entries, the removal step deletes
only the first, and the rename step then renames the surviving one, so an
entry of the returned list has a renamed `outputPath` after all. -/
theorem claimC10_cex :
    beforeEmit ⟨false, some "foo"⟩ (some ["out"])
      [⟨["out", "lualib_bundle.lua"], "a"⟩,
        ⟨["out", "lualib_bundle.lua"], "b"⟩]
      = Except.ok [⟨["out", "foo.lua"], "b"⟩] ∧
    (["out", "foo.lua"] : List String) ≠ ["out", "lualib_bundle.lua"] :=
  ⟨rfl, by decide⟩

/-- C10 (amended): with `generate_lualib_bundle` false and
`custom_lualib_bundle_name` set to `N` (present and non-empty), when the
input list holds at most one bundle entry the removal runs first and
eliminates any bundle entry, so the rename step renames nothing: the hook
returns exactly the removal step's output with every entry's code passed
through the leading `require` line rewrite. -/
theorem claimC10_remove_then_rewrite (cfg : Config) (d : List String)
    (result mid : List EmitFile) (N : String)
    (hgen : cfg.generate_lualib_bundle = false)
    (hname : cfg.custom_lualib_bundle_name = some N)
    (hN : N ≠ "")
    (hcount : result.countP (isBundleEntry (resolve d)) ≤ 1)
    (hmid : removeStep cfg (some d) result = Except.ok mid) :
    beforeEmit cfg (some d) result
      = Except.ok (mid.map fun f =>
          { f with code := replaceBundleRequire N f.code }) := by
  rw [beforeEmit_eq hmid]
  have hstep : removeStep cfg (some d) result
      = Except.ok (spliceRemoveOne result
        (findIndex (isBundleEntry (resolve d)) result)) := by
    simp [removeStep, hgen]
  rw [hstep] at hmid
  have hmid2 := (Except.ok.inj hmid).symm
  have hnb : ∀ y ∈ mid, isBundleEntry (resolve d) y = false := by
    rw [hmid2]
    exact splice_findIndex_no_match _ _ hcount
  have hrs : renameStep cfg (some d) mid
      = Except.ok (mid.map (renameFile (resolve d) N)) := by
    simp [renameStep, hname, hN]
  rw [hrs]
  exact congrArg Except.ok
    (List.map_congr_left fun y hy => renameFile_not_bundle (hnb y hy))

theorem claimC10_witness :
    ("foo" : String) ≠ "" ∧
    beforeEmit ⟨false, some "foo"⟩ (some ["out"])
      [⟨["out", "lualib_bundle.lua"], "b"⟩, ⟨["out", "a.lua"], "c"⟩]
      = Except.ok (([⟨["out", "a.lua"], "c"⟩] : List EmitFile).map fun f =>
          { f with code := replaceBundleRequire "foo" f.code }) :=
  ⟨by decide, claimC10_remove_then_rewrite ⟨false, some "foo"⟩ ["out"]
    [⟨["out", "lualib_bundle.lua"], "b"⟩, ⟨["out", "a.lua"], "c"⟩]
    [⟨["out", "a.lua"], "c"⟩] "foo" rfl rfl (by decide) (by decide) rfl⟩

example : ("ab" : String).data = ['a', 'b'] := rfl

example (a b : String) : (a ++ b).data = a.data ++ b.data := rfl

example :
    beforeEmit ⟨false, none⟩ (some ["out"])
      [⟨["out", "lualib_bundle.lua"], "a"⟩, ⟨["out", "x.lua"], "b"⟩]
      = Except.ok [⟨["out", "x.lua"], "b"⟩] := rfl

example :
    beforeEmit ⟨true, some "foo"⟩ (some ["out"])
      [⟨["out", "lualib_bundle.lua"], "a"⟩, ⟨["out", "x.lua"], oldLine ++ "b"⟩]
      = Except.ok [⟨["out", "foo.lua"], "a"⟩,
        ⟨["out", "x.lua"], newLine "foo" ++ "b"⟩] := rfl
